import Mathlib

/-!
Verification of the CSV-to-outline ingestion parser of the infographAI
front-end (`src/App.tsx`: `parseCSV` and `handleCsvUpload`).

The tokenizer and the row-to-outline mapping are embedded shallowly:
the JS string accumulator `currentVal` is modelled as its character
list, and a field is converted to a `String` at the moment it is pushed
into the current row, exactly where the JS pushes `currentVal`.
-/

/-- Models the row-termination block of `parseCSV`: push the pending
field into the current row, then append the row to the output if the
row is non-empty or the pending field was non-empty (after the push the
row is always non-empty, so the guard always passes — as in the source,
where `currentRow.push(currentVal)` precedes the test). -/
def endRow (rows : List (List String)) (row : List String) (val : List Char) :
    List (List String) :=
  let newRow := row ++ [String.mk val]
  if newRow ≠ [] ∨ val ≠ [] then rows ++ [newRow] else rows

/-- Character-by-character scan of `parseCSV` (src/App.tsx lines 100-137).
Arguments mirror the JS locals: the remaining input, `rows`,
`currentRow`, `currentVal` (as a character list) and `inQuote`.
A doubled quote inside a quoted span is consumed as one literal quote;
`\r\n` outside a quoted span is consumed as a single record delimiter;
at end of input a pending field or row is flushed as a final row. -/
def parseCSVAux : List Char → List (List String) → List String → List Char → Bool →
    List (List String)
  | [], rows, row, val, _ =>
      if val ≠ [] ∨ row ≠ [] then rows ++ [row ++ [String.mk val]] else rows
  | '"' :: '"' :: rest, rows, row, val, true =>
      parseCSVAux rest rows row (val ++ ['"']) true
  | '"' :: rest, rows, row, val, inQuote =>
      parseCSVAux rest rows row val (!inQuote)
  | ',' :: rest, rows, row, val, false =>
      parseCSVAux rest rows (row ++ [String.mk val]) [] false
  | '\r' :: '\n' :: rest, rows, row, val, false =>
      parseCSVAux rest (endRow rows row val) [] [] false
  | '\r' :: rest, rows, row, val, false =>
      parseCSVAux rest (endRow rows row val) [] [] false
  | '\n' :: rest, rows, row, val, false =>
      parseCSVAux rest (endRow rows row val) [] [] false
  | c :: rest, rows, row, val, inQuote =>
      parseCSVAux rest rows row (val ++ [c]) inQuote

/-- The tokenizer `parseCSV` of src/App.tsx: scan from the initial state. -/
def parseCSV (text : String) : List (List String) :=
  parseCSVAux text.data [] [] [] false

/-- One slide of the outline (`PresentationPage` in src/types.ts); the
ingestion path fills only `pageNumber`, `title` and `content`. -/
structure PresentationPage where
  pageNumber : Int
  title : String
  content : String
  visualCue : String
  emphasis : String
  mood : String
deriving DecidableEq

/-- Whitespace recognized by the JS runtime for `String.prototype.trim`
and the leading skip of `parseInt` (the common subset that can occur in
the fields handled here). -/
def isJsSpace (c : Char) : Bool :=
  c = ' ' || c = '\t' || c = '\n' || c = '\r' || c = '\x0b' || c = '\x0c' ||
    c = '\u00A0' || c = '\uFEFF'

/-- Models JS `String.prototype.trim`: drop whitespace from both ends. -/
def jsTrim (s : String) : String :=
  String.mk (((s.data.dropWhile isJsSpace).reverse.dropWhile isJsSpace).reverse)

/-- Models JS `String.prototype.toLowerCase` on the characters that occur
in the header markers (ASCII letters are lowered, katakana is unchanged). -/
def jsToLowerCase (s : String) : String :=
  String.mk (s.data.map Char.toLower)

/-- `leadsWith pat l` holds when `pat` is an initial segment of `l`. -/
def leadsWith : List Char → List Char → Bool
  | [], _ => true
  | _ :: _, [] => false
  | a :: as, b :: bs => a = b && leadsWith as bs

/-- `occursIn pat l` holds when `pat` occurs contiguously inside `l`. -/
def occursIn (pat : List Char) : List Char → Bool
  | [] => pat.isEmpty
  | c :: rest => leadsWith pat (c :: rest) || occursIn pat rest

/-- Models JS `String.prototype.includes`: `sub` occurs inside `s`. -/
def jsIncludes (s sub : String) : Bool :=
  occursIn sub.data s.data

/-- Value of a character as a digit in the given radix, as JS `parseInt`
reads digits (0-9, then letters in either case). -/
def digitValue (radix : Nat) (c : Char) : Option Nat :=
  let v : Option Nat :=
    if '0' ≤ c ∧ c ≤ '9' then some (c.toNat - '0'.toNat)
    else if 'a' ≤ c ∧ c ≤ 'z' then some (c.toNat - 'a'.toNat + 10)
    else if 'A' ≤ c ∧ c ≤ 'Z' then some (c.toNat - 'A'.toNat + 10)
    else none
  match v with
  | some d => if d < radix then some d else none
  | none => none

/-- Accumulate digits in the given radix, stopping at the first
non-digit, starting from an already-read accumulator. -/
def parseDigitsAux (radix : Nat) : List Char → Nat → Nat
  | [], acc => acc
  | c :: cs, acc =>
    match digitValue radix c with
    | some d => parseDigitsAux radix cs (acc * radix + d)
    | none => acc

/-- Models JS `parseInt(s)` with no explicit radix: skip leading
whitespace, read an optional sign, switch to radix 16 after a `0x`/`0X`
marker, then read digits up to the first non-digit; `none` models `NaN`
(no digit could be read). -/
def jsParseInt (s : String) : Option Int :=
  let cs := s.data.dropWhile isJsSpace
  let signAndRest : Int × List Char :=
    match cs with
    | '-' :: rest => (-1, rest)
    | '+' :: rest => (1, rest)
    | _ => (1, cs)
  let radixAndRest : Nat × List Char :=
    match signAndRest.2 with
    | '0' :: 'x' :: rest => (16, rest)
    | '0' :: 'X' :: rest => (16, rest)
    | _ => (10, signAndRest.2)
  match radixAndRest.2 with
  | [] => none
  | c :: cs3 =>
    match digitValue radixAndRest.1 c with
    | none => none
    | some d => some (signAndRest.1 * (parseDigitsAux radixAndRest.1 cs3 d : Int))

/-- Models the JS idiom `parseInt(x) || fallback`: `NaN` (here `none`)
and `0` are falsy and select the fallback; any other value, negative
values included, is kept. -/
def jsOr (o : Option Int) (fallback : Int) : Int :=
  match o with
  | none => fallback
  | some v => if v = 0 then fallback else v

/-- Models the header-detection block of `handleCsvUpload`
(src/App.tsx lines 165-171): lowercase the first row, then test
`header[0].includes(marker for slide) || header[0].includes(slide) ||
header[1].includes(marker for title) || header[1].includes(title)`.
`none` models the TypeError thrown when `.includes` is called on an
absent field (`undefined`), which JS short-circuiting reaches only if
the tests on the first field were false. -/
def detectHeader (firstRow : List String) : Option Bool :=
  let header := firstRow.map jsToLowerCase
  match header.get? 0 with
  | none => none
  | some h0 =>
    if jsIncludes h0 "スライド" || jsIncludes h0 "slide" then some true
    else
      match header.get? 1 with
      | none => none
      | some h1 => some (jsIncludes h1 "タイトル" || jsIncludes h1 "title")

/-- One iteration of the outline-building loop of `handleCsvUpload`
(src/App.tsx lines 180-204): derive page number, title and content from
the field count, then append a page only when the untrimmed title or
content is a non-empty (truthy) string; the stored title and content are
trimmed. -/
def outlineStep (acc : List PresentationPage) (cols : List String) :
    List PresentationPage :=
  let posNum : Int := (acc.length : Int) + 1
  let derived : Int × String × String :=
    match cols with
    | c0 :: c1 :: c2 :: _ => (jsOr (jsParseInt c0) posNum, c1, c2)
    | [c0, c1] => (posNum, c0, c1)
    | [c0] => (posNum, "", c0)
    | [] => (posNum, "", "")
  if derived.2.1 ≠ "" ∨ derived.2.2 ≠ "" then
    acc ++ [{ pageNumber := derived.1, title := jsTrim derived.2.1,
              content := jsTrim derived.2.2, visualCue := "", emphasis := "",
              mood := "" }]
  else acc

/-- The outline-building loop of `handleCsvUpload` over the data rows. -/
def buildOutline (rows : List (List String)) : List PresentationPage :=
  rows.foldl outlineStep []

/-- Observable outcome of `handleCsvUpload`. Only `installed` changes
application state (it sets `presentationOutline`, `imageCount` and
`step`); `silentNoop` models the early returns with no message,
`noValidData` the validation-failure alert for an empty outline, and
`readError` the catch-all alert for an exception thrown while handling
the parsed rows. -/
inductive CsvOutcome where
  | silentNoop
  | installed (outline : List PresentationPage)
  | noValidData
  | readError
deriving DecidableEq

/-- Models `handleCsvUpload` (src/App.tsx lines 151-225) applied to the
text read from the file: empty text returns silently; so does a
tokenization with zero rows; a TypeError from header detection is caught
and reported as a read error; otherwise the outline built from the data
rows is installed when non-empty and reported as having no valid data
when empty. -/
def handleCsvUpload (text : String) : CsvOutcome :=
  if text = "" then .silentNoop
  else
    match parseCSV text with
    | [] => .silentNoop
    | first :: restRows =>
      match detectHeader first with
      | none => .readError
      | some isHeader =>
        let newOutline := buildOutline (if isHeader then restRows else first :: restRows)
        if newOutline.length > 0 then .installed newOutline else .noValidData

/-- The pages the ingestion path accepts from the given text: empty when
tokenization yields no rows or header detection throws, otherwise the
outline built from the data rows. -/
def csvAcceptedPages (text : String) : List PresentationPage :=
  match parseCSV text with
  | [] => []
  | first :: restRows =>
    match detectHeader first with
    | none => []
    | some isHeader => buildOutline (if isHeader then restRows else first :: restRows)

/-- Title derived from a data row by field count (before trimming). -/
def derivedTitle : List String → String
  | _ :: c1 :: _ :: _ => c1
  | [c0, _] => c0
  | _ => ""

/-- Content derived from a data row by field count (before trimming). -/
def derivedContent : List String → String
  | _ :: _ :: c2 :: _ => c2
  | [_, c1] => c1
  | [c0] => c0
  | [] => ""

/-- Page number derived from a data row: the `parseInt(cols[0]) || pos`
idiom for rows of at least three fields, positional otherwise. -/
def derivedPageNum (acc : List PresentationPage) : List String → Int
  | c0 :: _ :: _ :: _ => jsOr (jsParseInt c0) ((acc.length : Int) + 1)
  | _ => (acc.length : Int) + 1

/-- Spec-side quote-escaping: each quote character of the value is
doubled. -/
def escapeQuotes : List Char → List Char
  | [] => []
  | c :: cs =>
    if c = '"' then '"' :: '"' :: escapeQuotes cs else c :: escapeQuotes cs

/-- Spec-side encoding of a value as one quoted field: wrap the value in
quotes, doubling each interior quote character. -/
def quoteEncode (v : String) : String :=
  String.mk ('"' :: (escapeQuotes v.data ++ ['"']))

/-- Spec-side record-delimiter normalization: replace each `\r\n` unit,
bare `\r`, or `\n` by a single `\n`. -/
def normalizeNewlines : List Char → List Char
  | [] => []
  | '\r' :: '\n' :: rest => '\n' :: normalizeNewlines rest
  | '\r' :: rest => '\n' :: normalizeNewlines rest
  | c :: rest => c :: normalizeNewlines rest

/-- Spec-side segmentation of raw text into its record-delimiter-separated
lines: split at each `\r\n` (one unit), bare `\r`, or `\n`. The empty
text is one empty line. -/
def recordSegments : List Char → List (List Char)
  | [] => [[]]
  | '\r' :: '\n' :: rest => [] :: recordSegments rest
  | '\r' :: rest => [] :: recordSegments rest
  | '\n' :: rest => [] :: recordSegments rest
  | c :: rest =>
    match recordSegments rest with
    | [] => [[c]]
    | s :: ss => (c :: s) :: ss

/-- Spec-side line count: the number of record-delimiter-separated lines
of the text, ignoring a single trailing empty line. -/
def lineCount (text : String) : Nat :=
  let segs := recordSegments text.data
  if segs.getLast? = some [] then segs.length - 1 else segs.length

/-! ### Sanity checks on concrete inputs -/

example : parseCSV "a,b\nc" = [["a", "b"], ["c"]] := by decide

example : parseCSV "" = [] := by decide

example : parseCSV "\n" = [[""]] := by decide

example : parseCSV "\"\"" = [] := by decide

example : parseCSV "a\r\nb\rc" = [["a"], ["b"], ["c"]] := by decide

example : parseCSV "\"a,b\"" = [["a,b"]] := by decide

example : parseCSV "\"a\"\"b\"" = [["a\"b"]] := by decide

example : jsParseInt "5" = some 5 := by decide

example : jsParseInt "-3" = some (-3) := by decide

example : jsParseInt "" = none := by decide

example : jsParseInt " 12abc" = some 12 := by decide

example : jsParseInt "0x10" = some 16 := by decide

example : jsParseInt "x" = none := by decide

example : detectHeader ["スライド番号", "タイトル", "本文"] = some true := by decide

example : detectHeader ["A", "B"] = some false := by decide

example : detectHeader ["no"] = none := by decide

example : detectHeader ["Slides"] = some true := by decide

example : handleCsvUpload "スライド番号,タイトル,本文\n1,Intro,Welcome" =
    .installed [{ pageNumber := 1, title := "Intro", content := "Welcome",
                  visualCue := "", emphasis := "", mood := "" }] := by decide

example : handleCsvUpload "A,B\nC,D" =
    .installed [{ pageNumber := 1, title := "A", content := "B",
                  visualCue := "", emphasis := "", mood := "" },
                { pageNumber := 2, title := "C", content := "D",
                  visualCue := "", emphasis := "", mood := "" }] := by decide

example : handleCsvUpload "" = .silentNoop := by decide

example : handleCsvUpload "\n" = .readError := by decide

example : handleCsvUpload "," = .noValidData := by decide

example : handleCsvUpload "no" = .readError := by decide

example : handleCsvUpload "5,Foo,Bar" =
    .installed [{ pageNumber := 5, title := "Foo", content := "Bar",
                  visualCue := "", emphasis := "", mood := "" }] := by decide

/-! ### Step lemmas for the scanner

One lemma per branch of `parseCSVAux`, so that inductions over the
input can unfold the scan without fighting the compiled pattern match. -/

theorem stepNil (rows row val q) :
    parseCSVAux [] rows row val q =
      if val ≠ [] ∨ row ≠ [] then rows ++ [row ++ [String.mk val]] else rows := rfl

theorem stepQuoteOff (rest rows row val) :
    parseCSVAux ('"' :: rest) rows row val false =
      parseCSVAux rest rows row val true := by
  conv_lhs => rw [parseCSVAux.eq_def]
  split <;> first
    | (simp_all; done)
    | (exfalso; injections; subst_vars; simp_all)

theorem stepQuoteLit (rest rows row val) :
    parseCSVAux ('"' :: '"' :: rest) rows row val true =
      parseCSVAux rest rows row (val ++ ['"']) true := rfl

theorem stepQuoteOn (c : Char) (rest rows row val) (h : c ≠ '"') :
    parseCSVAux ('"' :: c :: rest) rows row val true =
      parseCSVAux (c :: rest) rows row val false := by
  conv_lhs => rw [parseCSVAux.eq_def]
  split <;> first
    | (simp_all; done)
    | (exfalso; injections; subst_vars; simp_all)

theorem stepQuoteOnNil (rows row val) :
    parseCSVAux ['"'] rows row val true = parseCSVAux [] rows row val false := rfl

theorem stepComma (rest rows row val) :
    parseCSVAux (',' :: rest) rows row val false =
      parseCSVAux rest rows (row ++ [String.mk val]) [] false := rfl

theorem stepCrLf (rest rows row val) :
    parseCSVAux ('\r' :: '\n' :: rest) rows row val false =
      parseCSVAux rest (endRow rows row val) [] [] false := rfl

theorem stepLf (rest rows row val) :
    parseCSVAux ('\n' :: rest) rows row val false =
      parseCSVAux rest (endRow rows row val) [] [] false := by
  conv_lhs => rw [parseCSVAux.eq_def]
  split <;> first
    | (simp_all; done)
    | (exfalso; injections; subst_vars; simp_all)

theorem stepCr (c : Char) (rest rows row val) (h : c ≠ '\n') :
    parseCSVAux ('\r' :: c :: rest) rows row val false =
      parseCSVAux (c :: rest) (endRow rows row val) [] [] false := by
  conv_lhs => rw [parseCSVAux.eq_def]
  split <;> first
    | (simp_all; done)
    | (exfalso; injections; subst_vars; simp_all)

theorem stepCrNil (rows row val) :
    parseCSVAux ['\r'] rows row val false =
      parseCSVAux [] (endRow rows row val) [] [] false := rfl

theorem stepOther (c : Char) (rest rows row val q) (h1 : c ≠ '"') (h2 : c ≠ ',')
    (h3 : c ≠ '\r') (h4 : c ≠ '\n') :
    parseCSVAux (c :: rest) rows row val q =
      parseCSVAux rest rows row (val ++ [c]) q := by
  conv_lhs => rw [parseCSVAux.eq_def]
  split <;> first
    | (simp_all; done)
    | (exfalso; injections; subst_vars; simp_all)

theorem stepInQuote (c : Char) (rest rows row val) (h1 : c ≠ '"') :
    parseCSVAux (c :: rest) rows row val true =
      parseCSVAux rest rows row (val ++ [c]) true := by
  conv_lhs => rw [parseCSVAux.eq_def]
  split <;> first
    | (simp_all; done)
    | (exfalso; injections; subst_vars; simp_all)

theorem endRow_eq (rows row val) :
    endRow rows row val = rows ++ [row ++ [String.mk val]] := by
  simp [endRow]

/-! ### Invariants of the outline builder -/

theorem jsOr_ne_zero (o : Option Int) (d : Int) (hd : d ≠ 0) : jsOr o d ≠ 0 := by
  cases o with
  | none => simpa [jsOr] using hd
  | some v =>
    by_cases hv : v = 0
    · simpa [jsOr, hv] using hd
    · simpa [jsOr, hv] using hv

theorem outlineStep_pageNumber_ne_zero (acc : List PresentationPage)
    (cols : List String) (h : ∀ p ∈ acc, p.pageNumber ≠ 0) :
    ∀ p ∈ outlineStep acc cols, p.pageNumber ≠ 0 := by
  intro p hp
  have hpos : ((acc.length : Int) + 1) ≠ 0 := by omega
  rcases cols with _ | ⟨c0, _ | ⟨c1, _ | ⟨c2, rest⟩⟩⟩ <;>
    simp only [outlineStep] at hp <;>
    [skip; split at hp; split at hp; split at hp] <;>
    first
      | exact h p hp
      | (rcases List.mem_append.1 hp with hm | hm
         · exact h p hm
         · simp only [List.mem_singleton] at hm
           subst hm
           first
             | exact hpos
             | exact jsOr_ne_zero _ _ hpos)

theorem foldl_outlineStep_pageNumber_ne_zero :
    ∀ (rows : List (List String)) (acc : List PresentationPage),
      (∀ p ∈ acc, p.pageNumber ≠ 0) →
      ∀ p ∈ rows.foldl outlineStep acc, p.pageNumber ≠ 0
  | [], _, h => h
  | r :: rows, acc, h => by
      simp only [List.foldl_cons]
      exact foldl_outlineStep_pageNumber_ne_zero rows _
        (outlineStep_pageNumber_ne_zero acc r h)

/-- C10: the ingestion handler applied to empty text is a silent no-op:
no parse is attempted, no message is reported, state is unchanged. -/
theorem C10_empty_input_silent : handleCsvUpload "" = CsvOutcome.silentNoop := rfl

/-- C2 failing input: the claim says a first field containing the
substring `no` marks a header row and that header detection completes
for every first row, single-field rows included. The code checks no
`no` marker at all, and on the single-field first row `["no"]` it
dereferences the absent second field, so the caught TypeError is
reported as a generic read failure; a two-field first row containing
`no` in its first field is treated as data and installed. -/
theorem C2_code_behavior :
    handleCsvUpload "no" = CsvOutcome.readError ∧
      handleCsvUpload "Nombre,Desc" =
        CsvOutcome.installed [{ pageNumber := 1, title := "Nombre",
                                content := "Desc", visualCue := "",
                                emphasis := "", mood := "" }] := by
  decide

/-- C1 counterexample: a row whose two fields are the whitespace-only
string consisting of one space is accepted by the outline builder —
contradicting the claim that a row is accepted only if its title or
content is non-empty after trimming — and contributes a page whose
stored title and content are both empty. -/
theorem C1_counterexample :
    buildOutline [[" ", " "]] ≠ [] ∧
      buildOutline [[" ", " "]] =
        [{ pageNumber := 1, title := "", content := "", visualCue := "",
           emphasis := "", mood := "" }] := by decide

/-- C1 amended: a data row is accepted into the output exactly when its
derived title or derived content is non-empty BEFORE trimming; trimming
is applied only to the stored field values, so a whitespace-only row is
accepted and yields a page with empty title and content. -/
theorem C1_amended (acc : List PresentationPage) (cols : List String) :
    outlineStep acc cols =
      if derivedTitle cols ≠ "" ∨ derivedContent cols ≠ "" then
        acc ++ [{ pageNumber := derivedPageNum acc cols,
                  title := jsTrim (derivedTitle cols),
                  content := jsTrim (derivedContent cols),
                  visualCue := "", emphasis := "", mood := "" }]
      else acc := by
  rcases cols with _ | ⟨c0, _ | ⟨c1, _ | ⟨c2, rest⟩⟩⟩ <;> rfl

/-- C3 counterexample: the sole data row `["-3","T","C"]` produces a
page with pageNumber `-3`: a successfully parsed negative value is kept,
not replaced by the 1-based positional fallback, so pages do not always
carry a positive page number. -/
theorem C3_counterexample :
    buildOutline [["-3", "T", "C"]] =
      [{ pageNumber := -3, title := "T", content := "C", visualCue := "",
         emphasis := "", mood := "" }] ∧ ¬(0 : Int) < -3 := by decide

/-- C3 amended: for an accepted data row of at least three fields the
page number is the parsed value of field 0 whenever the parse succeeds
with a NONZERO value (negative values included); the 1-based positional
fallback applies exactly when the parse fails or yields zero; hence
every produced page has a nonzero — not necessarily positive — page
number. -/
theorem C3_amended :
    (∀ (acc : List PresentationPage) (c0 c1 c2 : String) (rest : List String)
       (v : Int), (c1 ≠ "" ∨ c2 ≠ "") → jsParseInt c0 = some v → v ≠ 0 →
       outlineStep acc (c0 :: c1 :: c2 :: rest) =
         acc ++ [{ pageNumber := v, title := jsTrim c1, content := jsTrim c2,
                   visualCue := "", emphasis := "", mood := "" }]) ∧
    (∀ (acc : List PresentationPage) (c0 c1 c2 : String) (rest : List String),
       (c1 ≠ "" ∨ c2 ≠ "") → (jsParseInt c0 = none ∨ jsParseInt c0 = some 0) →
       outlineStep acc (c0 :: c1 :: c2 :: rest) =
         acc ++ [{ pageNumber := (acc.length : Int) + 1, title := jsTrim c1,
                   content := jsTrim c2, visualCue := "", emphasis := "",
                   mood := "" }]) ∧
    (∀ (rows : List (List String)) (p : PresentationPage),
       p ∈ buildOutline rows → p.pageNumber ≠ 0) := by
  refine ⟨?_, ?_, ?_⟩
  · intro acc c0 c1 c2 rest v hacc hv hvnz
    simp [outlineStep, hacc, jsOr, hv, hvnz]
  · intro acc c0 c1 c2 rest hacc hv
    rcases hv with hv | hv <;> simp [outlineStep, hacc, jsOr, hv]
  · intro rows p hp
    exact foldl_outlineStep_pageNumber_ne_zero rows [] (by simp) p hp

/-- C3 witness: the explicit page number 5 in the sole data row is kept
(not repositioned to 1). -/
theorem C3_witness :
    outlineStep [] ["5", "Foo", "Bar"] =
      [] ++ [{ pageNumber := 5, title := jsTrim "Foo", content := jsTrim "Bar",
               visualCue := "", emphasis := "", mood := "" }] :=
  C3_amended.1 [] "5" "Foo" "Bar" [] 5 (Or.inl (by decide)) (by decide) (by decide)

/-- C4 counterexample: on the input consisting of only one blank line —
the claim's own example of a zero-page input — the handler does not
report the MalformedInput validation failure: header detection throws on
the absent second field of the row `[""]` and the caught error is
reported with the generic read-failure message instead. -/
theorem C4_counterexample :
    handleCsvUpload "\n" = CsvOutcome.readError ∧
      CsvOutcome.readError ≠ CsvOutcome.noValidData := by decide

/-- C4 amended: on every input on which the ingestion path accepts zero
pages it completes without an unhandled error and installs no partial
outline (state is unchanged); it reports the MalformedInput validation
message only when the mapping loop is actually reached, while an input
tokenizing to zero rows returns silently and an input whose first row
has a single non-header first field (such as the lone blank line) is
reported with the generic read-failure message. -/
theorem C4_amended (text : String) (h : csvAcceptedPages text = []) :
    handleCsvUpload text = CsvOutcome.silentNoop ∨
      handleCsvUpload text = CsvOutcome.readError ∨
      handleCsvUpload text = CsvOutcome.noValidData := by
  by_cases ht : text = ""
  · left
    simp [handleCsvUpload, ht]
  · cases hr : parseCSV text with
    | nil =>
      left
      simp [handleCsvUpload, ht, hr]
    | cons first restRows =>
      cases hd : detectHeader first with
      | none =>
        right; left
        simp [handleCsvUpload, ht, hr, hd]
      | some b =>
        have hb : buildOutline (if b then restRows else first :: restRows) = [] := by
          have hc := h
          simp [csvAcceptedPages, hr, hd] at hc
          exact hc
        right; right
        simp [handleCsvUpload, ht, hr, hd, hb]

/-- C4 witness: the blank-line input accepts zero pages, and the
handler indeed ends in one of the three uninstalled outcomes. -/
theorem C4_witness :
    handleCsvUpload "\n" = CsvOutcome.silentNoop ∨
      handleCsvUpload "\n" = CsvOutcome.readError ∨
      handleCsvUpload "\n" = CsvOutcome.noValidData :=
  C4_amended "\n" (by decide)

theorem stepQuoteGen (rest rows row val q)
    (hx : ∀ rest1, rest = '"' :: rest1 → q = true → False) :
    parseCSVAux ('"' :: rest) rows row val q =
      parseCSVAux rest rows row val (!q) := by
  cases q with
  | false => exact stepQuoteOff rest rows row val
  | true =>
    cases rest with
    | nil => exact stepQuoteOnNil rows row val
    | cons c r2 =>
      have hc : c ≠ '"' := fun h => hx r2 (by rw [h]) rfl
      exact stepQuoteOn c r2 rows row val hc

theorem stepCrGen (rest rows row val)
    (hx : ∀ rest1, rest = '\n' :: rest1 → False) :
    parseCSVAux ('\r' :: rest) rows row val false =
      parseCSVAux rest (endRow rows row val) [] [] false := by
  cases rest with
  | nil => exact stepCrNil rows row val
  | cons c r2 =>
    have hc : c ≠ '\n' := fun h => hx r2 (by rw [h])
    exact stepCr c r2 rows row val hc

theorem stepCatchAll (c : Char) (rest rows row val q)
    (h2 : c = '"' → False) (h3 : c = ',' → q = false → False)
    (h5 : c = '\r' → q = false → False) (h6 : c = '\n' → q = false → False) :
    parseCSVAux (c :: rest) rows row val q =
      parseCSVAux rest rows row (val ++ [c]) q := by
  cases q with
  | false =>
    exact stepOther c rest rows row val false h2 (fun h => h3 h rfl)
      (fun h => h5 h rfl) (fun h => h6 h rfl)
  | true => exact stepInQuote c rest rows row val h2

theorem rows_ne_nil (cs : List Char) (rows : List (List String)) (row : List String)
    (val : List Char) (q : Bool) :
    (∀ r ∈ rows, r ≠ []) → ∀ r ∈ parseCSVAux cs rows row val q, r ≠ [] := by
  induction cs, rows, row, val, q using parseCSVAux.induct with
  | case1 rows row val q hcond =>
    intro h r hr
    rw [stepNil, if_pos hcond] at hr
    rcases List.mem_append.1 hr with hm | hm
    · exact h r hm
    · simp only [List.mem_singleton] at hm
      subst hm
      simp
  | case2 rows row val q hcond =>
    intro h r hr
    rw [stepNil, if_neg hcond] at hr
    exact h r hr
  | case3 rest rows row val ih =>
    intro h
    rw [stepQuoteLit]
    exact ih h
  | case4 rest rows row val q hx ih =>
    intro h
    rw [stepQuoteGen rest rows row val q hx]
    exact ih h
  | case5 rest rows row val ih =>
    intro h
    rw [stepComma]
    exact ih h
  | case6 rest rows row val ih =>
    intro h
    rw [stepCrLf]
    refine ih ?_
    intro r hr
    rw [endRow_eq] at hr
    rcases List.mem_append.1 hr with hm | hm
    · exact h r hm
    · simp only [List.mem_singleton] at hm; subst hm; simp
  | case7 rest rows row val hx ih =>
    intro h
    rw [stepCrGen rest rows row val hx]
    refine ih ?_
    intro r hr
    rw [endRow_eq] at hr
    rcases List.mem_append.1 hr with hm | hm
    · exact h r hm
    · simp only [List.mem_singleton] at hm; subst hm; simp
  | case8 rest rows row val ih =>
    intro h
    rw [stepLf]
    refine ih ?_
    intro r hr
    rw [endRow_eq] at hr
    rcases List.mem_append.1 hr with hm | hm
    · exact h r hm
    · simp only [List.mem_singleton] at hm; subst hm; simp
  | case9 c rest rows row val q h1 h2 h3 h4 h5 h6 ih =>
    intro h
    rw [stepCatchAll c rest rows row val q h2 h3 h5 h6]
    exact ih h

/-- C9: every row returned by the tokenizer has at least one field (the
output never contains an empty row); a blank line between two record
delimiters yields a row of exactly one empty field, and the empty input
tokenizes to zero rows. -/
theorem C9_no_empty_rows :
    (∀ (text : String) (r : List String), r ∈ parseCSV text → r ≠ []) ∧
      parseCSV "a\n\nb" = [["a"], [""], ["b"]] ∧ parseCSV "" = [] := by
  refine ⟨?_, by decide, by decide⟩
  intro text r hr
  exact rows_ne_nil text.data [] [] [] false (by simp) r hr

/-- C9 witness: the single row produced from the one-character input is
non-empty, by the invariant applied at that input. -/
theorem C9_witness : (["x"] : List String) ≠ [] :=
  C9_no_empty_rows.1 "x" ["x"] (by decide)

theorem quotedScan (cs : List Char) : ∀ rows row val,
    parseCSVAux (escapeQuotes cs ++ ['"']) rows row val true =
      parseCSVAux [] rows row (val ++ cs) false := by
  induction cs with
  | nil =>
    intro rows row val
    simp only [escapeQuotes, List.nil_append, List.append_nil]
    exact stepQuoteOnNil rows row val
  | cons c cs ih =>
    intro rows row val
    by_cases hc : c = '"'
    · subst hc
      rw [show escapeQuotes ('"' :: cs) = '"' :: '"' :: escapeQuotes cs from rfl]
      rw [List.cons_append, List.cons_append, stepQuoteLit, ih]
      simp
    · simp only [escapeQuotes, if_neg hc, List.cons_append]
      rw [stepInQuote c _ rows row val hc, ih]
      simp

/-- C5 counterexample: the empty value wrapped in quotes tokenizes to
zero rows, not to one row holding one empty field, because at end of
input both the pending field and the pending row are empty and nothing
is flushed. -/
theorem C5_counterexample :
    parseCSV (quoteEncode "") = [] ∧ ([] : List (List String)) ≠ [[""]] := by
  decide

/-- C5 amended: for every NON-EMPTY value, the value wrapped in quotes
with each interior quote doubled tokenizes back to a single row with a
single field equal to exactly the original value (so delimiters inside
the quotes stay literal and a doubled quote decodes to one quote); the
empty value instead tokenizes to zero rows. -/
theorem C5_roundtrip (v : String) (hne : v ≠ "") :
    parseCSV (quoteEncode v) = [[v]] := by
  obtain ⟨cs⟩ := v
  have hcs : cs ≠ [] := fun hnil => hne (by rw [hnil])
  show parseCSVAux ('"' :: (escapeQuotes cs ++ ['"'])) [] [] [] false = [[⟨cs⟩]]
  rw [stepQuoteOff, quotedScan, stepNil]
  simp [hcs]

/-- C5 witness: a value containing a field delimiter, a record
delimiter and a quote character round-trips exactly. -/
theorem C5_witness :
    ("a,\"\nb" : String) ≠ "" ∧ parseCSV (quoteEncode "a,\"\nb") = [["a,\"\nb"]] :=
  ⟨by decide, C5_roundtrip "a,\"\nb" (by decide)⟩

theorem inQuoteScan (s : List Char) (hq : ∀ c ∈ s, c ≠ '"') : ∀ rows row val,
    parseCSVAux s rows row val true =
      if val ++ s ≠ [] ∨ row ≠ [] then rows ++ [row ++ [String.mk (val ++ s)]]
      else rows := by
  induction s with
  | nil =>
    intro rows row val
    rw [stepNil]
    simp
  | cons c s ih =>
    intro rows row val
    have hc : c ≠ '"' := hq c (by simp)
    rw [stepInQuote c s rows row val hc,
      ih (fun d hd => hq d (by simp [hd])) rows row (val ++ [c])]
    simp

/-- C8 counterexample: the input consisting of a single quote character
ends inside an unterminated quoted span with empty remaining text, and
the tokenizer returns zero rows — there is no final row whose final
field could carry the remaining text. -/
theorem C8_counterexample : parseCSV "\"" = [] := by decide

/-- C8 amended: when the scan reaches an opening quote in any pending
state (rows already emitted, current row, current field) and the rest of
the input contains no further quote character, the scan completes
without error and emits exactly one final row, whose final field is the
pending field followed literally by the whole remaining text — field and
record delimiters included — provided the remaining text or the pending
state is non-empty (a lone final quote with nothing pending emits no
row at all; a doubled quote in the remainder would collapse instead of
staying literal). -/
theorem C8_unterminated (s : List Char) (rows : List (List String))
    (row : List String) (val : List Char) (hq : ∀ c ∈ s, c ≠ '"')
    (hne : s ≠ [] ∨ val ≠ [] ∨ row ≠ []) :
    parseCSVAux ('"' :: s) rows row val false =
      rows ++ [row ++ [String.mk (val ++ s)]] := by
  rw [stepQuoteOff, inQuoteScan s hq rows row val]
  have hcond : val ++ s ≠ [] ∨ row ≠ [] := by
    rcases hne with h | h | h
    · left; simp [h]
    · left; simp [h]
    · right; exact h
  rw [if_pos hcond]

/-- C8 witness: from the initial state, an opening quote followed by a
field delimiter, a record delimiter and ordinary characters is absorbed
literally into the single final field. -/
theorem C8_witness :
    (∀ c ∈ ['a', ',', '\n', 'b'], c ≠ '"') ∧
      parseCSVAux ('"' :: ['a', ',', '\n', 'b']) [["x"]] ["y"] ['z'] false =
        [["x"]] ++ [["y"] ++ [String.mk (['z'] ++ ['a', ',', '\n', 'b'])]] :=
  ⟨by decide, C8_unterminated ['a', ',', '\n', 'b'] [["x"]] ["y"] ['z']
    (by decide) (Or.inl (by decide))⟩

theorem normCrLf (rest) :
    normalizeNewlines ('\r' :: '\n' :: rest) = '\n' :: normalizeNewlines rest := rfl

theorem normCr (rest) (hx : ∀ rest1, rest = '\n' :: rest1 → False) :
    normalizeNewlines ('\r' :: rest) = '\n' :: normalizeNewlines rest := by
  cases rest with
  | nil => rfl
  | cons c r2 =>
    have hc : c ≠ '\n' := fun h => hx r2 (by rw [h])
    conv_lhs => rw [normalizeNewlines.eq_def]
    split <;> first
      | (simp_all; done)
      | (exfalso; injections; subst_vars; simp_all)

theorem normOther (c : Char) (rest) (h : c ≠ '\r') :
    normalizeNewlines (c :: rest) = c :: normalizeNewlines rest := by
  conv_lhs => rw [normalizeNewlines.eq_def]
  split <;> first
    | (simp_all; done)
    | (exfalso; injections; subst_vars; simp_all)

theorem noQuoteNorm (cs : List Char) (rows : List (List String)) (row : List String)
    (val : List Char) (q : Bool) :
    q = false → (∀ c ∈ cs, c ≠ '"') →
      parseCSVAux cs rows row val q =
        parseCSVAux (normalizeNewlines cs) rows row val q := by
  induction cs, rows, row, val, q using parseCSVAux.induct with
  | case1 rows row val q hcond => intro _ _; rfl
  | case2 rows row val q hcond => intro _ _; rfl
  | case3 rest rows row val ih => intro hq _; simp at hq
  | case4 rest rows row val q hx ih =>
    intro _ hfree
    exact absurd rfl (hfree '"' (by simp))
  | case5 rest rows row val ih =>
    intro _ hfree
    rw [stepComma, normOther ',' rest (by decide), stepComma,
      ← ih rfl (fun c hc => hfree c (by simp [hc]))]
  | case6 rest rows row val ih =>
    intro _ hfree
    rw [stepCrLf, normCrLf, stepLf,
      ← ih rfl (fun c hc => hfree c (by simp [hc]))]
  | case7 rest rows row val hx ih =>
    intro _ hfree
    rw [stepCrGen rest rows row val hx, normCr rest hx, stepLf,
      ← ih rfl (fun c hc => hfree c (by simp [hc]))]
  | case8 rest rows row val ih =>
    intro _ hfree
    rw [stepLf, normOther '\n' rest (by decide), stepLf,
      ← ih rfl (fun c hc => hfree c (by simp [hc]))]
  | case9 c rest rows row val q h1 h2 h3 h4 h5 h6 ih =>
    intro hq hfree
    subst hq
    have hcr : c ≠ '\r' := fun h => h5 h rfl
    rw [stepCatchAll c rest rows row val false h2 h3 h5 h6,
      normOther c rest hcr,
      stepCatchAll c (normalizeNewlines rest) rows row val false h2 h3 h5 h6,
      ← ih rfl (fun d hd => hfree d (by simp [hd]))]

/-- C6: on an input with no quote characters, replacing every record
delimiter (`\r\n` as one unit, bare `\r`, or `\n`) by `\n` yields an
input that tokenizes to exactly the same sequence of rows. -/
theorem C6_mixed_line_endings (text : String) (h : ∀ c ∈ text.data, c ≠ '"') :
    parseCSV text = parseCSV (String.mk (normalizeNewlines text.data)) :=
  noQuoteNorm text.data [] [] [] false rfl h

/-- C6 witness: an input mixing all three delimiter styles segments
exactly as its all-`\n` normalization. -/
theorem C6_witness :
    parseCSV "a\r\nb\rc\nd" =
      parseCSV (String.mk (normalizeNewlines ("a\r\nb\rc\nd").data)) :=
  C6_mixed_line_endings "a\r\nb\rc\nd" (by decide)

theorem segCrLf (rest) :
    recordSegments ('\r' :: '\n' :: rest) = [] :: recordSegments rest := rfl

theorem segLf (rest) :
    recordSegments ('\n' :: rest) = [] :: recordSegments rest := rfl

theorem segCr (rest) (hx : ∀ rest1, rest = '\n' :: rest1 → False) :
    recordSegments ('\r' :: rest) = [] :: recordSegments rest := by
  cases rest with
  | nil => rfl
  | cons c r2 =>
    have hc : c ≠ '\n' := fun h => hx r2 (by rw [h])
    conv_lhs => rw [recordSegments.eq_def]
    split <;> first
      | (simp_all; done)
      | (exfalso; injections; subst_vars; simp_all)

theorem recordSegments_ne_nil (cs : List Char) : recordSegments cs ≠ [] := by
  rw [recordSegments.eq_def]
  split <;> first | (simp; done) | (split <;> simp)

theorem seg_exists (rest : List Char) :
    ∃ s ss, recordSegments rest = s :: ss := by
  cases h : recordSegments rest with
  | nil => exact absurd h (recordSegments_ne_nil rest)
  | cons a l => exact ⟨a, l, rfl⟩

theorem segOther (c : Char) (rest) (h : c ≠ '\r') (h2 : c ≠ '\n') (s : List Char)
    (ss : List (List Char)) (hss : recordSegments rest = s :: ss) :
    recordSegments (c :: rest) = (c :: s) :: ss := by
  conv_lhs => rw [recordSegments.eq_def]
  split
  case h_5 =>
    rename_i hx1 hx2 hx3 heq
    injection heq with hc hrest
    subst hc
    subst hrest
    rw [hss]
  all_goals simp_all

theorem countAux (cs : List Char) (rows : List (List String)) (row : List String)
    (val : List Char) (q : Bool) :
    q = false → (∀ c ∈ cs, c ≠ '"') →
      (parseCSVAux cs rows row val q).length + 1 =
        rows.length + (recordSegments cs).length +
          (if (recordSegments cs).getLast? ≠ some [] ∨
              ((recordSegments cs).length = 1 ∧ (row ≠ [] ∨ val ≠ [])) then 1
           else 0) := by
  induction cs, rows, row, val, q using parseCSVAux.induct with
  | case1 rows row val q hcond =>
    intro _ _
    rw [stepNil, if_pos hcond]
    rw [show recordSegments ([] : List Char) = [[]] from rfl]
    have hc2 : (([[]] : List (List Char)).getLast? ≠ some [] ∨
        (([[]] : List (List Char)).length = 1 ∧ (row ≠ [] ∨ val ≠ []))) :=
      Or.inr ⟨rfl, hcond.symm⟩
    rw [if_pos hc2]
    simp
  | case2 rows row val q hcond =>
    intro _ _
    have hv : val = [] := by rcases not_or.1 hcond with ⟨h1, _⟩; simpa using h1
    have hr : row = [] := by rcases not_or.1 hcond with ⟨_, h2⟩; simpa using h2
    subst hv
    subst hr
    rw [stepNil]
    simp [recordSegments]
  | case3 rest rows row val ih => intro hq _; simp at hq
  | case4 rest rows row val q hx ih =>
    intro _ hfree
    exact absurd rfl (hfree '"' (by simp))
  | case5 rest rows row val ih =>
    intro _ hfree
    obtain ⟨s, ss, hss⟩ := seg_exists rest
    rw [stepComma, ih rfl (fun d hd => hfree d (by simp [hd])),
      segOther ',' rest (by decide) (by decide) s ss hss, hss]
    rcases ss with _ | ⟨s2, ss2⟩
    · simp
    · simp [List.getLast?_cons_cons]
  | case6 rest rows row val ih =>
    intro _ hfree
    obtain ⟨s, ss, hss⟩ := seg_exists rest
    rw [stepCrLf, ih rfl (fun d hd => hfree d (by simp [hd])), segCrLf rest, hss,
      endRow_eq]
    by_cases hlast : (s :: ss).getLast? = some []
    · simp [hlast, List.getLast?_cons_cons]
      omega
    · simp [hlast, List.getLast?_cons_cons]
      omega
  | case7 rest rows row val hx ih =>
    intro _ hfree
    obtain ⟨s, ss, hss⟩ := seg_exists rest
    rw [stepCrGen rest rows row val hx,
      ih rfl (fun d hd => hfree d (by simp [hd])), segCr rest hx, hss, endRow_eq]
    by_cases hlast : (s :: ss).getLast? = some []
    · simp [hlast, List.getLast?_cons_cons]
      omega
    · simp [hlast, List.getLast?_cons_cons]
      omega
  | case8 rest rows row val ih =>
    intro _ hfree
    obtain ⟨s, ss, hss⟩ := seg_exists rest
    rw [stepLf, ih rfl (fun d hd => hfree d (by simp [hd])), segLf rest, hss,
      endRow_eq]
    by_cases hlast : (s :: ss).getLast? = some []
    · simp [hlast, List.getLast?_cons_cons]
      omega
    · simp [hlast, List.getLast?_cons_cons]
      omega
  | case9 c rest rows row val q h1 h2 h3 h4 h5 h6 ih =>
    intro hq hfree
    subst hq
    have hcr : c ≠ '\r' := fun hh => h5 hh rfl
    have hlf : c ≠ '\n' := fun hh => h6 hh rfl
    obtain ⟨s, ss, hss⟩ := seg_exists rest
    rw [stepCatchAll c rest rows row val false h2 h3 h5 h6,
      ih rfl (fun d hd => hfree d (by simp [hd])),
      segOther c rest hcr hlf s ss hss, hss]
    rcases ss with _ | ⟨s2, ss2⟩
    · simp
    · simp [List.getLast?_cons_cons]

/-- C7: for every input with no quote characters, the number of rows
returned by the tokenizer equals the number of record-delimiter-separated
lines of the input, ignoring a single trailing empty line (a final
record delimiter adds no extra row). -/
theorem C7_row_count (text : String) (h : ∀ c ∈ text.data, c ≠ '"') :
    (parseCSV text).length = lineCount text := by
  have hinv := countAux text.data [] [] [] false rfl h
  obtain ⟨s, ss, hss⟩ := seg_exists text.data
  rw [hss] at hinv
  unfold parseCSV
  simp only [lineCount, hss]
  by_cases hlast : (s :: ss).getLast? = some []
  · rw [if_pos hlast]
    have hneg : ¬((s :: ss).getLast? ≠ some [] ∨
        ((s :: ss).length = 1 ∧ (([] : List String) ≠ [] ∨ ([] : List Char) ≠ []))) := by
      simp [hlast]
    rw [if_neg hneg] at hinv
    simp only [List.length_nil, List.length_cons] at hinv ⊢
    omega
  · rw [if_neg hlast]
    have hpos : ((s :: ss).getLast? ≠ some [] ∨
        ((s :: ss).length = 1 ∧ (([] : List String) ≠ [] ∨ ([] : List Char) ≠ []))) :=
      Or.inl hlast
    rw [if_pos hpos] at hinv
    simp only [List.length_nil, List.length_cons] at hinv ⊢
    omega

/-- C7 witness: an input with a trailing newline has as many rows as
non-ignored lines. -/
theorem C7_witness : (parseCSV "a\nb\n").length = lineCount "a\nb\n" :=
  C7_row_count "a\nb\n" (by decide)

